import Mathlib

/-!
Verification development for the terminal driver layer of rustyline
(src/tty/unix.rs and src/tty/windows.rs).

Texts are represented as their list of grapheme clusters.  Every claim in
scope only involves texts whose clusters are single Unicode scalars, so a
cluster is modelled as a `Char`.  The input byte stream of the escape
decoder is modelled as the list of already-decoded code points, which is
the abstraction level at which the claims speak (they assume all bytes
available and valid UTF-8).
-/

namespace Rustyline

/-- `Position` from src/layout.rs (zero-based screen offset). -/
structure Position where
  row : Nat
  col : Nat
deriving DecidableEq, Repr

@[simp] theorem Position.row_mk (r c : Nat) : (⟨r, c⟩ : Position).row = r := rfl

@[simp] theorem Position.col_mk (r c : Nat) : (⟨r, c⟩ : Position).col = c := rfl

/-- The decoded-input vocabulary, `Key` from src/keys.rs.  Modelled from the
spec: character keys, named keys, function keys, bracketed-paste markers and
the unknown-escape-sequence sentinel. -/
inductive Key where
  | Char (c : Char)
  | Up | Down | Left | Right | Home | End | PageUp | PageDown
  | Insert | Delete | Tab | BackTab | Esc | Enter | Backspace
  | F (n : Nat)
  | BracketedPasteStart | BracketedPasteEnd
  | UnknownEscSeq
deriving DecidableEq, Repr

/-- Modifier set of a key press.  Modelled from the spec: a set over
Ctrl, Meta/Alt and Shift. -/
structure KeyMods where
  ctrl : Bool
  meta : Bool
  shift : Bool
deriving DecidableEq, Repr

def KeyMods.none : KeyMods := ⟨false, false, false⟩

/-- Modelled from the spec: `KeyMods::ctrl_meta_shift` (src/keys.rs is not
part of the excerpt) builds the modifier set from three booleans. -/
def KeyMods.ctrl_meta_shift (c m s : Bool) : KeyMods := ⟨c, m, s⟩

/-- `KeyPress` from src/keys.rs: a key together with its modifiers. -/
structure KeyPress where
  key : Key
  mods : KeyMods
deriving DecidableEq, Repr

def KeyPress.plain (k : Key) : KeyPress := ⟨k, KeyMods.none⟩

/-- `KeyPress::ctrl` on a named key. -/
def KeyPress.ctrl (k : Key) : KeyPress := ⟨k, ⟨true, false, false⟩⟩

/-- `KeyPress::shift` on a named key. -/
def KeyPress.shift (k : Key) : KeyPress := ⟨k, ⟨false, false, true⟩⟩

/-- `KeyPress::meta(c)`: a character key with the Meta bit. -/
def KeyPress.meta (c : Char) : KeyPress := ⟨Key.Char c, ⟨false, true, false⟩⟩

/-- `KeyPress::ctrl(c)` on a character. -/
def KeyPress.ctrl_char (c : Char) : KeyPress := ⟨Key.Char c, ⟨true, false, false⟩⟩

/-- `Key::with_mods`. -/
def Key.with_mods (k : Key) (m : KeyMods) : KeyPress := ⟨k, m⟩

def KeyPress.ESC : KeyPress := KeyPress.plain Key.Esc
def KeyPress.TAB : KeyPress := KeyPress.plain Key.Tab
def KeyPress.ENTER : KeyPress := KeyPress.plain Key.Enter
def KeyPress.BACKSPACE : KeyPress := KeyPress.plain Key.Backspace
def KeyPress.BACK_TAB : KeyPress := KeyPress.plain Key.BackTab
def KeyPress.UP : KeyPress := KeyPress.plain Key.Up
def KeyPress.DOWN : KeyPress := KeyPress.plain Key.Down
def KeyPress.LEFT : KeyPress := KeyPress.plain Key.Left
def KeyPress.RIGHT : KeyPress := KeyPress.plain Key.Right
def KeyPress.HOME : KeyPress := KeyPress.plain Key.Home
def KeyPress.END : KeyPress := KeyPress.plain Key.End
def KeyPress.INSERT : KeyPress := KeyPress.plain Key.Insert
def KeyPress.DELETE : KeyPress := KeyPress.plain Key.Delete
def KeyPress.PAGE_UP : KeyPress := KeyPress.plain Key.PageUp
def KeyPress.PAGE_DOWN : KeyPress := KeyPress.plain Key.PageDown
def KeyPress.UNKNOWN : KeyPress := KeyPress.plain Key.UnknownEscSeq

/-- Error taxonomy of src/error.rs restricted to what the driver produces. -/
inductive Err where
  | Eof
  | Utf8Error
  | WindowResize
deriving DecidableEq, Repr

/-! ## Geometry engine -/

/-- Width of one scalar under the `unicode-width` rules, `None` on control
characters (`UnicodeWidthChar::width`).  The model is exact on the ASCII
range, which is the only range the claims exercise; other scalars are given
width one. -/
def charWidthOpt (c : Char) : Option Nat :=
  if c.toNat < 0x20 ∨ c.toNat = 0x7f then none else some 1

/-- `UnicodeWidthStr::width` on a one-scalar cluster: control characters
count zero. -/
def strWidth (c : Char) : Nat := (charWidthOpt c).getD 0

/-- `width` from src/tty/unix.rs lines 699-727: display width of one cluster
together with the updated escape-recognition state (0 = outside, 1 = after
ESC, 2 = inside a CSI parameter run).  Any cluster seen in states 1 or 2
contributes zero width. -/
def width (c : Char) (escSeq : Nat) : Nat × Nat :=
  if escSeq = 1 then
    if c = '[' then (0, 2) else (0, 0)
  else if escSeq = 2 then
    if c = ';' ∨ c.isDigit then (0, 2) else (0, 0)
  else if c = '\x1b' then (0, 1)
  else if c = '\n' then (0, escSeq)
  else (strWidth c, escSeq)

/-- One step of `PosixRenderer::calculate_position` (src/tty/unix.rs lines
605-630): threads the position and the escape state over one cluster. -/
def calc_step (cols tabStop : Nat) (st : Position × Nat) (c : Char) : Position × Nat :=
  let pos := st.1
  let esc := st.2
  if c = '\n' then (⟨pos.row + 1, 0⟩, esc)
  else
    let cwesc := if c = '\t' then (tabStop - pos.col % tabStop, esc) else width c esc
    let col := pos.col + cwesc.1
    if col > cols then (⟨pos.row + 1, cwesc.1⟩, cwesc.2)
    else (⟨pos.row, col⟩, cwesc.2)

/-- `PosixRenderer::calculate_position`: fold the steps, then normalize a
final column equal to the terminal width to the start of the next row. -/
def calculate_position (cols tabStop : Nat) (s : List Char) (orig : Position) : Position :=
  let st := s.foldl (calc_step cols tabStop) (orig, 0)
  if st.1.col = cols then ⟨st.1.row + 1, 0⟩ else st.1

/-- One step of `ConsoleRenderer::calculate_position` (src/tty/windows.rs
lines 360-383): iterates scalars, no escape-sequence state machine, control
characters (width `None`) contribute nothing. -/
def calc_step_w (cols : Nat) (pos : Position) (c : Char) : Position :=
  if c = '\n' then ⟨pos.row + 1, 0⟩
  else
    match charWidthOpt c with
    | Option.none => pos
    | Option.some cw =>
      let col := pos.col + cw
      if col > cols then ⟨pos.row + 1, cw⟩ else ⟨pos.row, col⟩

/-- `ConsoleRenderer::calculate_position`. -/
def calculate_position_w (cols : Nat) (s : List Char) (orig : Position) : Position :=
  let pos := s.foldl (calc_step_w cols) orig
  if pos.col = cols then ⟨pos.row + 1, 0⟩ else pos

/-! ## Escape-sequence decoder (src/tty/unix.rs)

The decoder consumes the stream one code point at a time; each function
returns the decoded key press together with the unconsumed rest of the
stream, or `Err.Eof` when the stream runs out (`next_char` on a closed
stream). -/

/-- `RawReader::next_char` at the code-point level. -/
def next_char (l : List Char) : Except Err (Char × List Char) :=
  match l with
  | [] => Except.error Err.Eof
  | c :: r => Except.ok (c, r)

/-- Modelled from the spec: `char_to_key_press` lives in src/keys.rs, which
is not part of the excerpt.  Ctrl+letter maps through the 0x00-0x1F
control-code range per the historical convention; Tab, Enter, Esc and
Backspace keep their named keys; any other scalar is a plain character
key. -/
def char_to_key_press (c : Char) : KeyPress :=
  if c = '\x09' then KeyPress.TAB
  else if c = '\x0d' then KeyPress.ENTER
  else if c = '\x1b' then KeyPress.ESC
  else if c = '\x7f' then KeyPress.BACKSPACE
  else if c.toNat = 0 then KeyPress.ctrl_char ' '
  else if c.toNat < 0x20 then KeyPress.ctrl_char (Char.ofNat (c.toNat + 0x40))
  else KeyPress.plain (Key.Char c)

/-- Key table for `ESC [ <n> ~` sequences. -/
def tilde_key (seq2 : Char) : KeyPress :=
  match seq2 with
  | '1' | '7' => KeyPress.HOME
  | '2' => KeyPress.INSERT
  | '3' => KeyPress.DELETE
  | '4' | '8' => KeyPress.END
  | '5' => KeyPress.PAGE_UP
  | '6' => KeyPress.PAGE_DOWN
  | _ => KeyPress.UNKNOWN

/-- Key table for `ESC [ <n1> <n2> ~` sequences (rxvt/xterm numeric
function keys). -/
def rxvt_fkey (seq2 seq3 : Char) : KeyPress :=
  match seq2, seq3 with
  | '1', '1' => KeyPress.plain (Key.F 1)
  | '1', '2' => KeyPress.plain (Key.F 2)
  | '1', '3' => KeyPress.plain (Key.F 3)
  | '1', '4' => KeyPress.plain (Key.F 4)
  | '1', '5' => KeyPress.plain (Key.F 5)
  | '1', '7' => KeyPress.plain (Key.F 6)
  | '1', '8' => KeyPress.plain (Key.F 7)
  | '1', '9' => KeyPress.plain (Key.F 8)
  | '2', '0' => KeyPress.plain (Key.F 9)
  | '2', '1' => KeyPress.plain (Key.F 10)
  | '2', '3' => KeyPress.plain (Key.F 11)
  | '2', '4' => KeyPress.plain (Key.F 12)
  | _, _ => KeyPress.UNKNOWN

/-- Key table for `ESC [ <n1> <n2> <n3> ~` sequences (bracketed-paste
markers). -/
def paste_marker (seq2 seq3 seq4 : Char) : KeyPress :=
  match seq2, seq3, seq4 with
  | '2', '0', '0' => KeyPress.plain Key.BracketedPasteStart
  | '2', '0', '1' => KeyPress.plain Key.BracketedPasteEnd
  | _, _, _ => KeyPress.UNKNOWN

/-- Key table for `ESC [ 1 ; <m> <c>` sequences (modifier-prefixed
arrows). -/
def mod_arrow (seq4 seq5 : Char) : KeyPress :=
  match seq4, seq5 with
  | '5', 'A' => KeyPress.ctrl Key.Up
  | '5', 'B' => KeyPress.ctrl Key.Down
  | '5', 'C' => KeyPress.ctrl Key.Right
  | '5', 'D' => KeyPress.ctrl Key.Left
  | '2', 'A' => KeyPress.shift Key.Up
  | '2', 'B' => KeyPress.shift Key.Down
  | '2', 'C' => KeyPress.shift Key.Right
  | '2', 'D' => KeyPress.shift Key.Left
  | _, _ => KeyPress.UNKNOWN

/-- Key table for `ESC [ <m> <c>` two-character sequences: only the Ctrl
(5) modifier is recognized here. -/
def short_mod_arrow (seq2 seq3 : Char) : KeyPress :=
  match seq2, seq3 with
  | '5', 'A' => KeyPress.ctrl Key.Up
  | '5', 'B' => KeyPress.ctrl Key.Down
  | '5', 'C' => KeyPress.ctrl Key.Right
  | '5', 'D' => KeyPress.ctrl Key.Left
  | _, _ => KeyPress.UNKNOWN

/-- Key table for `ESC [ [ <c>` sequences (Linux console function keys). -/
def linux_fkey (seq3 : Char) : KeyPress :=
  match seq3 with
  | 'A' => KeyPress.plain (Key.F 1)
  | 'B' => KeyPress.plain (Key.F 2)
  | 'C' => KeyPress.plain (Key.F 3)
  | 'D' => KeyPress.plain (Key.F 4)
  | 'E' => KeyPress.plain (Key.F 5)
  | _ => KeyPress.UNKNOWN

/-- Key table for plain `ESC [ <c>` ANSI sequences. -/
def ansi_key (seq2 : Char) : KeyPress :=
  match seq2 with
  | 'A' => KeyPress.UP
  | 'B' => KeyPress.DOWN
  | 'C' => KeyPress.RIGHT
  | 'D' => KeyPress.LEFT
  | 'F' => KeyPress.END
  | 'H' => KeyPress.HOME
  | 'Z' => KeyPress.BACK_TAB
  | _ => KeyPress.UNKNOWN

/-- Key table for `ESC O <c>` SS3 sequences. -/
def ss3_key (seq2 : Char) : KeyPress :=
  match seq2 with
  | 'A' => KeyPress.UP
  | 'B' => KeyPress.DOWN
  | 'C' => KeyPress.RIGHT
  | 'D' => KeyPress.LEFT
  | 'F' => KeyPress.END
  | 'H' => KeyPress.HOME
  | 'P' => KeyPress.plain (Key.F 1)
  | 'Q' => KeyPress.plain (Key.F 2)
  | 'R' => KeyPress.plain (Key.F 3)
  | 'S' => KeyPress.plain (Key.F 4)
  | 'a' => KeyPress.ctrl Key.Up
  | 'b' => KeyPress.ctrl Key.Down
  | 'c' => KeyPress.ctrl Key.Right
  | 'd' => KeyPress.ctrl Key.Left
  | _ => KeyPress.UNKNOWN

/-- `PosixRawReader::extended_escape` (src/tty/unix.rs lines 225-347):
handles `ESC [ <digit>` sequences, `seq2` being the already-read digit. -/
def extended_escape (seq2 : Char) (l : List Char) : Except Err (KeyPress × List Char) :=
  match l with
  | [] => Except.error Err.Eof
  | seq3 :: l3 =>
    if seq3 = '~' then
      Except.ok (tilde_key seq2, l3)
    else if seq3.isDigit then
      match l3 with
      | [] => Except.error Err.Eof
      | seq4 :: l4 =>
        if seq4 = '~' then
          Except.ok (rxvt_fkey seq2 seq3, l4)
        else if seq4 = ';' then
          -- ESC [ n1 n2 ; ... : cursor-position report shape, always unknown
          match l4 with
          | [] => Except.error Err.Eof
          | seq5 :: l5 =>
            if seq5.isDigit then
              match l5 with
              | [] => Except.error Err.Eof
              | seq6 :: l6 =>
                if seq6.isDigit then
                  match l6 with
                  | [] => Except.error Err.Eof
                  | _ :: l7 => Except.ok (KeyPress.UNKNOWN, l7)
                else Except.ok (KeyPress.UNKNOWN, l6)
            else Except.ok (KeyPress.UNKNOWN, l5)
        else if seq4.isDigit then
          match l4 with
          | [] => Except.error Err.Eof
          | seq5 :: l5 =>
            if seq5 = '~' then
              Except.ok (paste_marker seq2 seq3 seq4, l5)
            else Except.ok (KeyPress.UNKNOWN, l5)
        else Except.ok (KeyPress.UNKNOWN, l4)
    else if seq3 = ';' then
      match l3 with
      | [] => Except.error Err.Eof
      | seq4 :: l4 =>
        if seq4.isDigit then
          match l4 with
          | [] => Except.error Err.Eof
          | seq5 :: l5 =>
            if seq5.isDigit then
              -- cursor-position report, consume the expected closing char
              match l5 with
              | [] => Except.error Err.Eof
              | _ :: l6 => Except.ok (KeyPress.UNKNOWN, l6)
            else if seq2 = '1' then
              Except.ok (mod_arrow seq4 seq5, l5)
            else Except.ok (KeyPress.UNKNOWN, l5)
        else Except.ok (KeyPress.UNKNOWN, l4)
    else
      Except.ok (short_mod_arrow seq2 seq3, l3)

/-- `PosixRawReader::escape_csi` (src/tty/unix.rs lines 178-221). -/
def escape_csi (l : List Char) : Except Err (KeyPress × List Char) :=
  match l with
  | [] => Except.error Err.Eof
  | seq2 :: l2 =>
    if seq2.isDigit then
      -- the 0 | 9 arms are unsupported, every other digit reads on
      if seq2 = '0' ∨ seq2 = '9' then Except.ok (KeyPress.UNKNOWN, l2)
      else extended_escape seq2 l2
    else if seq2 = '[' then
      match l2 with
      | [] => Except.error Err.Eof
      | seq3 :: l3 => Except.ok (linux_fkey seq3, l3)
    else
      Except.ok (ansi_key seq2, l2)

/-- `PosixRawReader::escape_o` (src/tty/unix.rs lines 350-372). -/
def escape_o (l : List Char) : Except Err (KeyPress × List Char) :=
  match l with
  | [] => Except.error Err.Eof
  | seq2 :: l2 => Except.ok (ss3_key seq2, l2)

/-- `PosixRawReader::escape_sequence` (src/tty/unix.rs lines 158-175). -/
def escape_sequence (l : List Char) : Except Err (KeyPress × List Char) :=
  match l with
  | [] => Except.error Err.Eof
  | seq1 :: l1 =>
    if seq1 = '[' then escape_csi l1
    else if seq1 = 'O' then escape_o l1
    else if seq1 = '\x1b' then Except.ok (KeyPress.ESC, l1)
    else Except.ok (KeyPress.meta seq1, l1)

/-- `PosixRawReader::next_key` (src/tty/unix.rs lines 381-405).  The
`poll(timeout_ms)` disambiguation of a lone ESC is modelled by whether more
input is pending: an empty rest means the poll timed out and a bare Escape
is returned. -/
def next_key (l : List Char) : Except Err (KeyPress × List Char) :=
  match l with
  | [] => Except.error Err.Eof
  | c :: rest =>
    let key := char_to_key_press c
    if key = KeyPress.ESC then
      match rest with
      | [] => Except.ok (KeyPress.ESC, rest)
      | _ :: _ => escape_sequence rest
    else Except.ok (key, rest)

/-! ## Resize bridge and raw stdin read -/

/-- `PosixRenderer::sigwinch` / `ConsoleRenderer::sigwinch`: a
`compare_and_swap(true, false, SeqCst)` on the process-wide resize flag.
Returns the previous flag value together with the updated flag. -/
def sigwinch (flag : Bool) : Bool × Bool :=
  if flag = true then (flag, false) else (flag, flag)

/-- Flag value after `n` further `sigwinch` calls starting from `flag`. -/
def sigwinch_after (n : Nat) (flag : Bool) : Bool :=
  match n with
  | 0 => flag
  | n + 1 => (sigwinch (sigwinch_after n flag)).2

/-- `std::io::ErrorKind`, restricted to what `StdinRaw::read` inspects. -/
inductive IOErrorKind where
  | Interrupted
  | WouldBlock
  | Other
deriving DecidableEq, Repr

/-- `StdinRaw::read` (src/tty/unix.rs lines 104-127): the retry loop over
successive raw `read(2)` outcomes, with the resize flag held fixed (the
signal handler is the only other writer).  `Option.none` models a read that
never returns (no outcome left). -/
def stdin_read (sigwinchFlag : Bool) :
    List (Except IOErrorKind Nat) → Option (Except IOErrorKind Nat)
  | [] => Option.none
  | Except.ok n :: _ => Option.some (Except.ok n)
  | Except.error e :: rest =>
    if e ≠ IOErrorKind.Interrupted ∨ sigwinchFlag = true then
      Option.some (Except.error e)
    else stdin_read sigwinchFlag rest

/-! ## Claim theorems -/

/-- C9: decoding the byte sequence ESC [ A yields the Up key with no
modifiers, and decoding ESC [ 1 ; 5 A yields the Up key with the Ctrl
modifier set. -/
theorem next_key_up_arrow_forms :
    next_key ['\x1b', '[', 'A'] = Except.ok (KeyPress.plain Key.Up, []) ∧
    next_key ['\x1b', '[', '1', ';', '5', 'A'] =
      Except.ok (KeyPress.ctrl Key.Up, []) := by
  constructor <;> rfl

/-- Arrow key denoted by a final escape-sequence letter. -/
def arrow_of (c : Char) : Key :=
  if c = 'A' then Key.Up
  else if c = 'B' then Key.Down
  else if c = 'C' then Key.Right
  else Key.Left

/-- C2 counterexample: decoding ESC [ 2 A does not yield Shift+Up (the
claimed result); it yields the UnknownEscSeq sentinel. -/
theorem extended_escape_shift_arrow_counterexample :
    next_key ['\x1b', '[', '2', 'A'] = Except.ok (KeyPress.UNKNOWN, []) ∧
    KeyPress.UNKNOWN ≠ KeyPress.shift Key.Up :=
  ⟨rfl, by decide⟩

/-- C2 (amended): for every arrow letter c in A-D, ESC [ 5 c decodes to the
Ctrl-modified arrow, but ESC [ 2 c decodes to the UnknownEscSeq sentinel
(Shift+arrow is only produced by the ESC [ 1 ; 2 c form). -/
theorem extended_escape_ctrl_arrow (c : Char)
    (h : c = 'A' ∨ c = 'B' ∨ c = 'C' ∨ c = 'D') :
    next_key ['\x1b', '[', '5', c] = Except.ok (KeyPress.ctrl (arrow_of c), []) ∧
    next_key ['\x1b', '[', '2', c] = Except.ok (KeyPress.UNKNOWN, []) := by
  rcases h with h | h | h | h <;> subst h <;> exact ⟨rfl, rfl⟩

/-- C2 witness at c = A. -/
theorem extended_escape_ctrl_arrow_witness :
    next_key ['\x1b', '[', '5', 'A'] = Except.ok (KeyPress.ctrl (arrow_of 'A'), []) ∧
    next_key ['\x1b', '[', '2', 'A'] = Except.ok (KeyPress.UNKNOWN, []) :=
  extended_escape_ctrl_arrow 'A' (Or.inl rfl)

/-- C6: after the resize flag is set, the first `sigwinch` call reports true
and clears the flag; every later call reports false until the flag is set
again. -/
theorem sigwinch_check_and_clear :
    (sigwinch true).1 = true ∧
    ∀ n : Nat, (sigwinch (sigwinch_after (n + 1) true)).1 = false := by
  refine ⟨rfl, ?_⟩
  have hsnd : ∀ b : Bool, (sigwinch b).2 = false := by
    intro b
    cases b <;> rfl
  intro n
  have hafter : sigwinch_after (n + 1) true = false := hsnd _
  simp [hafter, sigwinch]

/-- C7: an interrupted raw read is retried transparently when the resize
flag is clear, and surfaces the error when the resize flag is set. -/
theorem stdin_read_interrupted :
    ∀ rest : List (Except IOErrorKind Nat),
      stdin_read false (Except.error IOErrorKind.Interrupted :: rest) =
        stdin_read false rest ∧
      stdin_read true (Except.error IOErrorKind.Interrupted :: rest) =
        Option.some (Except.error IOErrorKind.Interrupted) := by
  intro rest
  constructor <;> simp [stdin_read]

/-- C5: the colorized prompt measures three columns: every character of the
two embedded `ESC [` parameter runs, including the terminating one,
contributes zero width, and the two visible characters plus the trailing
space contribute one column each (terminal at least four columns wide so no
wrap occurs). -/
theorem calculate_position_colored_prompt (cols tabStop : Nat) (h : 3 < cols) :
    calculate_position cols tabStop "\x1b[1;32m>>\x1b[0m ".toList ⟨0, 0⟩ =
      ⟨0, 3⟩ := by
  show calculate_position cols tabStop
    ['\x1b', '[', '1', ';', '3', '2', 'm', '>', '>', '\x1b', '[', '0', 'm', ' ']
    ⟨0, 0⟩ = ⟨0, 3⟩
  have h0 : ¬ (0 > cols) := by omega
  have h1 : ¬ (1 > cols) := by omega
  have h2 : ¬ (2 > cols) := by omega
  have h3 : ¬ (3 > cols) := by omega
  have hne : ¬ (3 = cols) := by omega
  simp [calculate_position, calc_step, width, strWidth, charWidthOpt,
    h0, h1, h2, h3, hne]

/-- C5 witness at cols = 80, tab stop = 4. -/
theorem calculate_position_colored_prompt_witness :
    3 < 80 ∧
      calculate_position 80 4 "\x1b[1;32m>>\x1b[0m ".toList ⟨0, 0⟩ = ⟨0, 3⟩ :=
  ⟨by decide, calculate_position_colored_prompt 80 4 (by decide)⟩

/-! ## Geometry of plain ASCII text

For a text of printable ASCII characters every cluster advances the column
by exactly one, so the position after `k` characters starting from the
origin is a pure function of `k`. -/

/-- Position reached after `k` width-one characters from the origin, before
the final end-of-text normalization. -/
def gpos (C k : Nat) : Position :=
  if k = 0 then ⟨0, 0⟩ else ⟨(k - 1) / C, (k - 1) % C + 1⟩

theorem succ_div_mod_of_mod_succ_eq (C m : Nat) (hC : 0 < C)
    (h : m % C + 1 = C) : (m + 1) % C = 0 ∧ (m + 1) / C = m / C + 1 := by
  have hd := Nat.div_add_mod m C
  have hm : m + 1 = C * (m / C + 1) := by
    rw [Nat.mul_succ]
    omega
  constructor
  · rw [hm]
    exact Nat.mul_mod_right C (m / C + 1)
  · rw [hm]
    exact Nat.mul_div_cancel_left (m / C + 1) hC

theorem succ_div_mod_of_mod_succ_lt (C m : Nat) (hC : 0 < C)
    (h : m % C + 1 < C) : (m + 1) % C = m % C + 1 ∧ (m + 1) / C = m / C := by
  have hd := Nat.div_add_mod m C
  have hm : m + 1 = (m % C + 1) + C * (m / C) := by omega
  constructor
  · rw [hm, Nat.add_mul_mod_self_left]
    exact Nat.mod_eq_of_lt h
  · rw [hm, Nat.add_mul_div_left _ _ hC, Nat.div_eq_of_lt h, Nat.zero_add]

/-- Advancing one width-one character from `gpos C k`, with the wrap rule of
`calculate_position`, lands on `gpos C (k + 1)`. -/
theorem gpos_succ (C k : Nat) (hC : 0 < C) :
    (if (gpos C k).col + 1 > C then (⟨(gpos C k).row + 1, 1⟩ : Position)
     else ⟨(gpos C k).row, (gpos C k).col + 1⟩) = gpos C (k + 1) := by
  match k with
  | 0 =>
    simp only [gpos, if_pos rfl]
    have : ¬ (0 + 1 > C) := by omega
    simp [this]
  | m + 1 =>
    have hmlt : m % C < C := Nat.mod_lt m hC
    simp only [gpos, Nat.add_sub_cancel, if_neg (Nat.succ_ne_zero m),
      if_neg (Nat.succ_ne_zero (m + 1)), Nat.add_sub_cancel]
    by_cases hcase : m % C + 1 = C
    · obtain ⟨he1, he2⟩ := succ_div_mod_of_mod_succ_eq C m hC hcase
      have : m % C + 1 + 1 > C := by omega
      simp [this, he1, he2]
    · have hlt : m % C + 1 < C := by omega
      obtain ⟨he1, he2⟩ := succ_div_mod_of_mod_succ_lt C m hC hlt
      have : ¬ (m % C + 1 + 1 > C) := by omega
      simp [this, he1, he2]

/-- The end-of-text normalization applied to `gpos C k` yields exactly the
div/mod position. -/
theorem gpos_norm (C k : Nat) (hC : 0 < C) :
    (if (gpos C k).col = C then (⟨(gpos C k).row + 1, 0⟩ : Position)
     else gpos C k) = ⟨k / C, k % C⟩ := by
  match k with
  | 0 =>
    simp only [gpos, if_pos rfl]
    have : ¬ ((0 : Nat) = C) := by omega
    simp [this, Nat.zero_div, Nat.zero_mod]
  | m + 1 =>
    have hmlt : m % C < C := Nat.mod_lt m hC
    simp only [gpos, if_neg (Nat.succ_ne_zero m), Nat.add_sub_cancel]
    by_cases hcase : m % C + 1 = C
    · obtain ⟨he1, he2⟩ := succ_div_mod_of_mod_succ_eq C m hC hcase
      simp [hcase, he1, he2]
    · have hlt : m % C + 1 < C := by omega
      obtain ⟨he1, he2⟩ := succ_div_mod_of_mod_succ_lt C m hC hlt
      simp [hcase, he1, he2]

/-- A printable ASCII character: no wide characters, tabs, escapes or
newlines. -/
def printableAscii (c : Char) : Prop := 0x20 ≤ c.toNat ∧ c.toNat ≤ 0x7e

instance (c : Char) : Decidable (printableAscii c) := by
  unfold printableAscii
  infer_instance

theorem printableAscii.ne_nl {c : Char} (h : printableAscii c) : c ≠ '\n' := by
  intro he
  subst he
  exact absurd h.1 (by decide)

theorem printableAscii.ne_tab {c : Char} (h : printableAscii c) : c ≠ '\t' := by
  intro he
  subst he
  exact absurd h.1 (by decide)

theorem printableAscii.ne_esc {c : Char} (h : printableAscii c) : c ≠ '\x1b' := by
  intro he
  subst he
  exact absurd h.1 (by decide)

theorem printableAscii.strWidth_eq {c : Char} (h : printableAscii c) :
    strWidth c = 1 := by
  have : ¬ (c.toNat < 0x20 ∨ c.toNat = 0x7f) := by
    obtain ⟨h1, h2⟩ := h
    omega
  simp [strWidth, charWidthOpt, this]

theorem printableAscii.charWidthOpt_eq {c : Char} (h : printableAscii c) :
    charWidthOpt c = Option.some 1 := by
  have : ¬ (c.toNat < 0x20 ∨ c.toNat = 0x7f) := by
    obtain ⟨h1, h2⟩ := h
    omega
  simp [charWidthOpt, this]

/-- On a printable ASCII character, one `calc_step` from escape state 0 is
the width-one advance with wrap. -/
theorem calc_step_printable (C T : Nat) (p : Position) (c : Char)
    (h : printableAscii c) :
    calc_step C T (p, 0) c =
      (if p.col + 1 > C then (⟨p.row + 1, 1⟩ : Position)
       else ⟨p.row, p.col + 1⟩, 0) := by
  simp only [calc_step, width, if_neg h.ne_nl, if_neg h.ne_tab,
    if_neg h.ne_esc, h.strWidth_eq]
  norm_num
  split <;> rfl

/-- On a printable ASCII character, one `calc_step_w` is the width-one
advance with wrap. -/
theorem calc_step_w_printable (C : Nat) (p : Position) (c : Char)
    (h : printableAscii c) :
    calc_step_w C p c =
      if p.col + 1 > C then (⟨p.row + 1, 1⟩ : Position)
      else ⟨p.row, p.col + 1⟩ := by
  simp only [calc_step_w, if_neg h.ne_nl, h.charWidthOpt_eq]

theorem foldl_calc_step_printable (C T : Nat) (hC : 0 < C) :
    ∀ (s : List Char), (∀ c ∈ s, printableAscii c) → ∀ k : Nat,
      List.foldl (calc_step C T) (gpos C k, 0) s = (gpos C (k + s.length), 0) := by
  intro s
  induction s with
  | nil => intro _ k; simp
  | cons c t ih =>
    intro hs k
    have hc : printableAscii c := hs c (List.mem_cons_self c t)
    have ht : ∀ c ∈ t, printableAscii c := fun x hx => hs x (List.mem_cons_of_mem c hx)
    rw [List.foldl_cons, calc_step_printable C T _ c hc, gpos_succ C k hC,
      ih ht (k + 1)]
    simp only [List.length_cons]
    have harith : k + 1 + t.length = k + (t.length + 1) := by omega
    rw [harith]

theorem foldl_calc_step_w_printable (C : Nat) (hC : 0 < C) :
    ∀ (s : List Char), (∀ c ∈ s, printableAscii c) → ∀ k : Nat,
      List.foldl (calc_step_w C) (gpos C k) s = gpos C (k + s.length) := by
  intro s
  induction s with
  | nil => intro _ k; simp
  | cons c t ih =>
    intro hs k
    have hc : printableAscii c := hs c (List.mem_cons_self c t)
    have ht : ∀ c ∈ t, printableAscii c := fun x hx => hs x (List.mem_cons_of_mem c hx)
    rw [List.foldl_cons, calc_step_w_printable C _ c hc, gpos_succ C k hC,
      ih ht (k + 1)]
    simp only [List.length_cons]
    have harith : k + 1 + t.length = k + (t.length + 1) := by omega
    rw [harith]

/-- C1 counterexample: on both platforms, a two-character string with the
terminal two columns wide ends at column 0 (the full row is normalized to
the start of the next row), not at column min(len, cols) = 2 as claimed. -/
theorem calculate_position_min_counterexample :
    calculate_position 2 4 ['a', 'b'] ⟨0, 0⟩ = ⟨1, 0⟩ ∧
    calculate_position_w 2 ['a', 'b'] ⟨0, 0⟩ = ⟨1, 0⟩ ∧
    (calculate_position 2 4 ['a', 'b'] ⟨0, 0⟩).col ≠ min 2 2 := by
  refine ⟨rfl, rfl, ?_⟩
  decide

/-- C1 (amended): for every string of printable ASCII characters (no wide
characters, tabs, escapes or newlines) and positive terminal width,
`calculate_position` from the origin ends at row len / cols and column
len mod cols, on both platforms.  In particular the column is min(len, cols)
only while len mod cols = min(len, cols); a string filling its last row
ends at column 0 of the next row. -/
theorem calculate_position_ascii_div_mod (cols tabStop : Nat) (s : List Char)
    (hC : 0 < cols) (hs : ∀ c ∈ s, printableAscii c) :
    calculate_position cols tabStop s ⟨0, 0⟩ =
      ⟨s.length / cols, s.length % cols⟩ ∧
    calculate_position_w cols s ⟨0, 0⟩ =
      ⟨s.length / cols, s.length % cols⟩ := by
  have h0 : gpos cols 0 = ⟨0, 0⟩ := rfl
  constructor
  · rw [calculate_position]
    have := foldl_calc_step_printable cols tabStop hC s hs 0
    rw [h0] at this
    rw [this]
    simpa using gpos_norm cols (0 + s.length) hC
  · rw [calculate_position_w]
    have := foldl_calc_step_w_printable cols hC s hs 0
    rw [h0] at this
    rw [this]
    simpa using gpos_norm cols (0 + s.length) hC

/-- C1 witness: four characters in a three-column terminal end at row 1,
column 1 on both platforms. -/
theorem calculate_position_ascii_div_mod_witness :
    (0 < 3 ∧ ∀ c ∈ (['a', 'b', 'c', 'd'] : List Char), printableAscii c) ∧
    calculate_position 3 4 ['a', 'b', 'c', 'd'] ⟨0, 0⟩ =
      ⟨(['a', 'b', 'c', 'd'] : List Char).length / 3,
       (['a', 'b', 'c', 'd'] : List Char).length % 3⟩ ∧
    calculate_position_w 3 ['a', 'b', 'c', 'd'] ⟨0, 0⟩ =
      ⟨(['a', 'b', 'c', 'd'] : List Char).length / 3,
       (['a', 'b', 'c', 'd'] : List Char).length % 3⟩ :=
  ⟨⟨by decide, by decide⟩,
    calculate_position_ascii_div_mod 3 4 ['a', 'b', 'c', 'd'] (by decide) (by decide)⟩

/-! ## Column invariant -/

theorem width_fst_le_one (c : Char) (e : Nat) : (width c e).1 ≤ 1 := by
  unfold width strWidth charWidthOpt
  split
  · split <;> simp
  · split
    · split <;> simp
    · split
      · simp
      · split
        · simp
        · split <;> simp

/-- An ASCII character: its width advance in the model is at most one. -/
def asciiChar (c : Char) : Prop := c.toNat ≤ 0x7e

instance (c : Char) : Decidable (asciiChar c) := by
  unfold asciiChar
  infer_instance

theorem foldl_calc_step_col_le (C T : Nat) (hT : 1 ≤ T) (hTC : T ≤ C) :
    ∀ (s : List Char) (p : Position) (e : Nat), (∀ c ∈ s, asciiChar c) →
      p.col ≤ C → (List.foldl (calc_step C T) (p, e) s).1.col ≤ C := by
  intro s
  induction s with
  | nil => intro p e _ hp; simpa using hp
  | cons c t ih =>
    intro p e hs hp
    have ht : ∀ x ∈ t, asciiChar x := fun x hx => hs x (List.mem_cons_of_mem c hx)
    rw [List.foldl_cons]
    by_cases hnl : c = '\n'
    · simp only [calc_step, if_pos hnl]
      exact ih _ _ ht (by simp)
    · by_cases htab : c = '\t'
      · simp only [calc_step, if_neg hnl, if_pos htab]
        have hcw : T - p.col % T ≤ C := le_trans (Nat.sub_le T _) hTC
        split
        · exact ih _ _ ht hcw
        · next hle =>
          exact ih _ _ ht (by simp only [Position.col_mk]; omega)
      · simp only [calc_step, if_neg hnl, if_neg htab]
        have hcw : (width c e).1 ≤ C := le_trans (width_fst_le_one c e) (by omega)
        split
        · exact ih _ _ ht hcw
        · next hle =>
          exact ih _ _ ht (by simp only [Position.col_mk]; omega)

theorem foldl_calc_step_w_col_le (C : Nat) (hC : 1 ≤ C) :
    ∀ (s : List Char) (p : Position), (∀ c ∈ s, asciiChar c) →
      p.col ≤ C → (List.foldl (calc_step_w C) p s).col ≤ C := by
  intro s
  induction s with
  | nil => intro p _ hp; simpa using hp
  | cons c t ih =>
    intro p hs hp
    have ht : ∀ x ∈ t, asciiChar x := fun x hx => hs x (List.mem_cons_of_mem c hx)
    rw [List.foldl_cons]
    by_cases hnl : c = '\n'
    · simp only [calc_step_w, if_pos hnl]
      exact ih _ ht (by simp)
    · simp only [calc_step_w, if_neg hnl]
      match hcw : charWidthOpt c with
      | Option.none => exact ih _ ht hp
      | Option.some cw =>
        have hcw1 : cw ≤ 1 := by
          unfold charWidthOpt at hcw
          split at hcw
          · cases hcw
          · cases hcw
            exact le_refl 1
        simp only []
        split
        · exact ih _ ht (by simp only [Position.col_mk]; omega)
        · next hle =>
          exact ih _ ht (by simp only [Position.col_mk]; omega)

/-- C8 counterexample: with a four-column terminal and tab stop 8, the
string consisting of one tab, starting from the origin (whose column 0 is
below the terminal width), ends at column 8, which is not below the
terminal width of 4. -/
theorem calculate_position_col_lt_counterexample :
    (Position.col ⟨0, 0⟩ < 4) ∧
    calculate_position 4 8 ['\t'] ⟨0, 0⟩ = ⟨1, 8⟩ ∧
    ¬ ((calculate_position 4 8 ['\t'] ⟨0, 0⟩).col < 4) :=
  ⟨by decide, rfl, by decide⟩

/-- C8 (amended): for ASCII input strings and a tab stop between 1 and the
terminal width, every starting position whose column is below the terminal
width yields a final column strictly below the terminal width, on both
platforms; a final column exactly equal to the width is normalized to the
start of the next row.  (A tab advance or wide character exceeding the
terminal width escapes the invariant, hence the restrictions.) -/
theorem calculate_position_col_lt (cols tabStop : Nat) (s : List Char)
    (orig : Position) (horig : orig.col < cols) (hT : 1 ≤ tabStop)
    (hTC : tabStop ≤ cols) (hs : ∀ c ∈ s, asciiChar c) :
    (calculate_position cols tabStop s orig).col < cols ∧
    (calculate_position_w cols s orig).col < cols := by
  have hC : 1 ≤ cols := by omega
  constructor
  · rw [calculate_position]
    have hle : (List.foldl (calc_step cols tabStop) (orig, 0) s).1.col ≤ cols :=
      foldl_calc_step_col_le cols tabStop hT hTC s orig 0 hs (by omega)
    split
    · simpa using hC
    · next hne => omega
  · rw [calculate_position_w]
    have hle : (List.foldl (calc_step_w cols) orig s).col ≤ cols :=
      foldl_calc_step_w_col_le cols hC s orig hs (by omega)
    split
    · simpa using hC
    · next hne => omega

/-- C8 witness: one character in a four-column terminal with tab stop 4. -/
theorem calculate_position_col_lt_witness :
    ((Position.col ⟨0, 2⟩ < 4) ∧ 1 ≤ 4 ∧ 4 ≤ 4 ∧
      ∀ c ∈ (['a', '\t'] : List Char), asciiChar c) ∧
    (calculate_position 4 4 ['a', '\t'] ⟨0, 2⟩).col < 4 ∧
    (calculate_position_w 4 ['a', '\t'] ⟨0, 2⟩).col < 4 :=
  ⟨⟨by decide, by decide, by decide, by decide⟩,
    calculate_position_col_lt 4 4 ['a', '\t'] ⟨0, 2⟩ (by decide) (by decide)
      (by decide) (by decide)⟩

/-- The streams (after the leading ESC) that match a case of the decoding
grammar, read off the grammar table: ESC ESC; ESC with any other
non-introducer character (meta); an SS3, ANSI, Linux-console, tilde,
rxvt/xterm function-key, bracketed-paste or modifier-arrow sequence whose
final characters its key table recognizes. -/
inductive Matches : List Char → Prop where
  | esc_esc (r : List Char) : Matches ('\x1b' :: r)
  | meta (c : Char) (r : List Char) (h1 : c ≠ '[') (h2 : c ≠ 'O')
      (h3 : c ≠ '\x1b') : Matches (c :: r)
  | ss3 (c : Char) (r : List Char) (h : ss3_key c ≠ KeyPress.UNKNOWN) :
      Matches ('O' :: c :: r)
  | csi (c : Char) (r : List Char) (h : ansi_key c ≠ KeyPress.UNKNOWN) :
      Matches ('[' :: c :: r)
  | linux_console (c : Char) (r : List Char)
      (h : linux_fkey c ≠ KeyPress.UNKNOWN) : Matches ('[' :: '[' :: c :: r)
  | tilde (d : Char) (r : List Char) (h : tilde_key d ≠ KeyPress.UNKNOWN) :
      Matches ('[' :: d :: '~' :: r)
  | fkey (d1 d2 : Char) (r : List Char)
      (h : rxvt_fkey d1 d2 ≠ KeyPress.UNKNOWN) :
      Matches ('[' :: d1 :: d2 :: '~' :: r)
  | paste (d1 d2 d3 : Char) (r : List Char)
      (h : paste_marker d1 d2 d3 ≠ KeyPress.UNKNOWN) :
      Matches ('[' :: d1 :: d2 :: d3 :: '~' :: r)
  | mod_prefixed (m c : Char) (r : List Char)
      (h : mod_arrow m c ≠ KeyPress.UNKNOWN) :
      Matches ('[' :: '1' :: ';' :: m :: c :: r)
  | short_mod (d c : Char) (r : List Char)
      (h : short_mod_arrow d c ≠ KeyPress.UNKNOWN) : Matches ('[' :: d :: c :: r)

set_option maxHeartbeats 1000000 in
/-- C3: with all bytes available (at least seven further code points, the
longest grammar path), a stream after ESC that matches no case of the
decoding grammar makes `next_key` return the KeyPress carrying the
UnknownEscSeq sentinel rather than an error. -/
theorem next_key_unmatched_sentinel (rest : List Char) (hlen : 7 ≤ rest.length)
    (hm : ¬ Matches rest) :
    ∃ r, next_key ('\x1b' :: rest) = Except.ok (KeyPress.UNKNOWN, r) := by
  obtain _ | ⟨c1, l1⟩ := rest
  · simp at hlen
  obtain _ | ⟨c2, l2⟩ := l1
  · simp at hlen
  obtain _ | ⟨c3, l3⟩ := l2
  · simp at hlen
  obtain _ | ⟨c4, l4⟩ := l3
  · simp at hlen
  obtain _ | ⟨c5, l5⟩ := l4
  · simp at hlen
  obtain _ | ⟨c6, l6⟩ := l5
  · simp at hlen
  obtain _ | ⟨c7, l7⟩ := l6
  · simp at hlen
  have hnk : next_key ('\x1b' :: c1 :: c2 :: c3 :: c4 :: c5 :: c6 :: c7 :: l7) =
      escape_sequence (c1 :: c2 :: c3 :: c4 :: c5 :: c6 :: c7 :: l7) := rfl
  rw [hnk]
  by_cases h1b : c1 = '['
  · by_cases hd2 : c2.isDigit = true
    · by_cases h09 : c2 = '0' ∨ c2 = '9'
      · refine ⟨c3 :: c4 :: c5 :: c6 :: c7 :: l7, ?_⟩
        simp only [escape_sequence, escape_csi]
        rw [if_pos h1b, if_pos hd2, if_pos h09]
      · by_cases h3t : c3 = '~'
        · have htk : tilde_key c2 = KeyPress.UNKNOWN := by
            by_contra hne
            subst h1b
            subst h3t
            exact hm (Matches.tilde c2 _ hne)
          refine ⟨c4 :: c5 :: c6 :: c7 :: l7, ?_⟩
          simp only [escape_sequence, escape_csi, extended_escape]
          rw [if_pos h1b, if_pos hd2, if_neg h09, if_pos h3t, htk]
        · by_cases h3d : c3.isDigit = true
          · by_cases h4t : c4 = '~'
            · have hfk : rxvt_fkey c2 c3 = KeyPress.UNKNOWN := by
                by_contra hne
                subst h1b
                subst h4t
                exact hm (Matches.fkey c2 c3 _ hne)
              refine ⟨c5 :: c6 :: c7 :: l7, ?_⟩
              simp only [escape_sequence, escape_csi, extended_escape]
              rw [if_pos h1b, if_pos hd2, if_neg h09, if_neg h3t, if_pos h3d,
                if_pos h4t, hfk]
            · by_cases h4s : c4 = ';'
              · by_cases h5d : c5.isDigit = true
                · by_cases h6d : c6.isDigit = true
                  · refine ⟨l7, ?_⟩
                    simp only [escape_sequence, escape_csi, extended_escape]
                    rw [if_pos h1b, if_pos hd2, if_neg h09, if_neg h3t,
                      if_pos h3d, if_neg h4t, if_pos h4s, if_pos h5d, if_pos h6d]
                  · refine ⟨c7 :: l7, ?_⟩
                    simp only [escape_sequence, escape_csi, extended_escape]
                    rw [if_pos h1b, if_pos hd2, if_neg h09, if_neg h3t,
                      if_pos h3d, if_neg h4t, if_pos h4s, if_pos h5d, if_neg h6d]
                · refine ⟨c6 :: c7 :: l7, ?_⟩
                  simp only [escape_sequence, escape_csi, extended_escape]
                  rw [if_pos h1b, if_pos hd2, if_neg h09, if_neg h3t,
                    if_pos h3d, if_neg h4t, if_pos h4s, if_neg h5d]
              · by_cases h4d : c4.isDigit = true
                · by_cases h5t : c5 = '~'
                  · have hpm : paste_marker c2 c3 c4 = KeyPress.UNKNOWN := by
                      by_contra hne
                      subst h1b
                      subst h5t
                      exact hm (Matches.paste c2 c3 c4 _ hne)
                    refine ⟨c6 :: c7 :: l7, ?_⟩
                    simp only [escape_sequence, escape_csi, extended_escape]
                    rw [if_pos h1b, if_pos hd2, if_neg h09, if_neg h3t,
                      if_pos h3d, if_neg h4t, if_neg h4s, if_pos h4d,
                      if_pos h5t, hpm]
                  · refine ⟨c6 :: c7 :: l7, ?_⟩
                    simp only [escape_sequence, escape_csi, extended_escape]
                    rw [if_pos h1b, if_pos hd2, if_neg h09, if_neg h3t,
                      if_pos h3d, if_neg h4t, if_neg h4s, if_pos h4d, if_neg h5t]
                · refine ⟨c5 :: c6 :: c7 :: l7, ?_⟩
                  simp only [escape_sequence, escape_csi, extended_escape]
                  rw [if_pos h1b, if_pos hd2, if_neg h09, if_neg h3t,
                    if_pos h3d, if_neg h4t, if_neg h4s, if_neg h4d]
          · by_cases h3s : c3 = ';'
            · by_cases h4d : c4.isDigit = true
              · by_cases h5d : c5.isDigit = true
                · refine ⟨c7 :: l7, ?_⟩
                  simp only [escape_sequence, escape_csi, extended_escape]
                  rw [if_pos h1b, if_pos hd2, if_neg h09, if_neg h3t,
                    if_neg h3d, if_pos h3s, if_pos h4d, if_pos h5d]
                · by_cases h21 : c2 = '1'
                  · have hma : mod_arrow c4 c5 = KeyPress.UNKNOWN := by
                      by_contra hne
                      subst h1b
                      subst h21
                      subst h3s
                      exact hm (Matches.mod_prefixed c4 c5 _ hne)
                    refine ⟨c6 :: c7 :: l7, ?_⟩
                    simp only [escape_sequence, escape_csi, extended_escape]
                    rw [if_pos h1b, if_pos hd2, if_neg h09, if_neg h3t,
                      if_neg h3d, if_pos h3s, if_pos h4d, if_neg h5d,
                      if_pos h21, hma]
                  · refine ⟨c6 :: c7 :: l7, ?_⟩
                    simp only [escape_sequence, escape_csi, extended_escape]
                    rw [if_pos h1b, if_pos hd2, if_neg h09, if_neg h3t,
                      if_neg h3d, if_pos h3s, if_pos h4d, if_neg h5d, if_neg h21]
              · refine ⟨c5 :: c6 :: c7 :: l7, ?_⟩
                simp only [escape_sequence, escape_csi, extended_escape]
                rw [if_pos h1b, if_pos hd2, if_neg h09, if_neg h3t,
                  if_neg h3d, if_pos h3s, if_neg h4d]
            · have hsm : short_mod_arrow c2 c3 = KeyPress.UNKNOWN := by
                by_contra hne
                subst h1b
                exact hm (Matches.short_mod c2 c3 _ hne)
              refine ⟨c4 :: c5 :: c6 :: c7 :: l7, ?_⟩
              simp only [escape_sequence, escape_csi, extended_escape]
              rw [if_pos h1b, if_pos hd2, if_neg h09, if_neg h3t, if_neg h3d,
                if_neg h3s, hsm]
    · by_cases h2b : c2 = '['
      · have hlf : linux_fkey c3 = KeyPress.UNKNOWN := by
          by_contra hne
          subst h1b
          subst h2b
          exact hm (Matches.linux_console c3 _ hne)
        refine ⟨c4 :: c5 :: c6 :: c7 :: l7, ?_⟩
        simp only [escape_sequence, escape_csi]
        rw [if_pos h1b, if_neg hd2, if_pos h2b, hlf]
      · have hak : ansi_key c2 = KeyPress.UNKNOWN := by
          by_contra hne
          subst h1b
          exact hm (Matches.csi c2 _ hne)
        refine ⟨c3 :: c4 :: c5 :: c6 :: c7 :: l7, ?_⟩
        simp only [escape_sequence, escape_csi]
        rw [if_pos h1b, if_neg hd2, if_neg h2b, hak]
  · by_cases h1o : c1 = 'O'
    · have hss : ss3_key c2 = KeyPress.UNKNOWN := by
        by_contra hne
        subst h1o
        exact hm (Matches.ss3 c2 _ hne)
      refine ⟨c3 :: c4 :: c5 :: c6 :: c7 :: l7, ?_⟩
      simp only [escape_sequence, escape_o]
      rw [if_neg h1b, if_pos h1o, hss]
    · exfalso
      by_cases h1e : c1 = '\x1b'
      · subst h1e
        exact hm (Matches.esc_esc _)
      · exact hm (Matches.meta c1 _ h1b h1o h1e)

theorem unmatched_example : ¬ Matches ['[', '5', 'E', 'F', 'G', 'H', 'I'] := by
  intro h
  cases h <;> simp_all <;> (rename_i hx; exact hx rfl)

/-- C3 witness: the unmatched stream ESC [ 5 E (padded to seven available
code points) decodes to the UnknownEscSeq sentinel. -/
theorem next_key_unmatched_sentinel_witness :
    (7 ≤ (['[', '5', 'E', 'F', 'G', 'H', 'I'] : List Char).length ∧
      ¬ Matches ['[', '5', 'E', 'F', 'G', 'H', 'I']) ∧
    ∃ r, next_key ('\x1b' :: ['[', '5', 'E', 'F', 'G', 'H', 'I']) =
      Except.ok (KeyPress.UNKNOWN, r) :=
  ⟨⟨by decide, unmatched_example⟩,
    next_key_unmatched_sentinel ['[', '5', 'E', 'F', 'G', 'H', 'I'] (by decide)
      unmatched_example⟩

theorem escape_o_le {l r : List Char} {kp : KeyPress}
    (h : escape_o l = Except.ok (kp, r)) : r.length ≤ l.length := by
  unfold escape_o at h
  repeat' split at h
  all_goals first
    | exact Except.noConfusion h
    | (simp only [Except.ok.injEq, Prod.mk.injEq] at h
       obtain ⟨h1, h2⟩ := h
       subst h2
       simp only [List.length_cons]
       omega)

set_option maxHeartbeats 1000000 in
theorem extended_escape_le {seq2 : Char} {l r : List Char} {kp : KeyPress}
    (h : extended_escape seq2 l = Except.ok (kp, r)) : r.length ≤ l.length := by
  unfold extended_escape at h
  repeat' split at h
  all_goals first
    | exact Except.noConfusion h
    | (simp only [Except.ok.injEq, Prod.mk.injEq] at h
       obtain ⟨h1, h2⟩ := h
       subst h2
       simp only [List.length_cons]
       omega)

set_option maxHeartbeats 1000000 in
theorem escape_csi_le {l r : List Char} {kp : KeyPress}
    (h : escape_csi l = Except.ok (kp, r)) : r.length ≤ l.length := by
  unfold escape_csi at h
  repeat' split at h
  all_goals first
    | exact Except.noConfusion h
    | (simp only [Except.ok.injEq, Prod.mk.injEq] at h
       obtain ⟨h1, h2⟩ := h
       subst h2
       simp only [List.length_cons]
       omega)
    | (have hle := extended_escape_le h
       simp only [List.length_cons]
       omega)

theorem escape_sequence_le {l r : List Char} {kp : KeyPress}
    (h : escape_sequence l = Except.ok (kp, r)) : r.length ≤ l.length := by
  unfold escape_sequence at h
  repeat' split at h
  all_goals first
    | exact Except.noConfusion h
    | (simp only [Except.ok.injEq, Prod.mk.injEq] at h
       obtain ⟨h1, h2⟩ := h
       subst h2
       simp only [List.length_cons]
       omega)
    | (have hle := escape_csi_le h
       simp only [List.length_cons]
       omega)
    | (have hle := escape_o_le h
       simp only [List.length_cons]
       omega)

/-- The accumulation loop of `PosixRawReader::read_pasted_text`
(src/tty/unix.rs lines 423-437): gathers code points until an escape
sequence decoding to the paste-end marker arrives; any other escape
sequence is swallowed, contributing nothing.  Returns the raw accumulated
code points and the unconsumed stream. -/
def read_pasted_loop (l : List Char) : Except Err (List Char × List Char) :=
  match l with
  | [] => Except.error Err.Eof
  | c :: rest =>
    if c = '\x1b' then
      match he : escape_sequence rest with
      | Except.error e => Except.error e
      | Except.ok (kp, r) =>
        if kp.key = Key.BracketedPasteEnd then Except.ok ([], r)
        else read_pasted_loop r
    else
      match read_pasted_loop rest with
      | Except.error e => Except.error e
      | Except.ok (buf, r) => Except.ok (c :: buf, r)
termination_by l.length
decreasing_by
  · have hle := escape_sequence_le he
    simp only [List.length_cons]
    omega
  · simp only [List.length_cons]
    omega

/-- `String::replace` of the two-character pattern CR LF by LF:
left-to-right, non-overlapping matches. -/
def replace_crlf : List Char → List Char
  | [] => []
  | [c] => [c]
  | c1 :: c2 :: t =>
    if c1 = '\x0d' ∧ c2 = '\x0a' then '\x0a' :: replace_crlf t
    else c1 :: replace_crlf (c2 :: t)

/-- `String::replace` of CR by LF. -/
def replace_cr : List Char → List Char
  | [] => []
  | c :: t => if c = '\x0d' then '\x0a' :: replace_cr t else c :: replace_cr t

/-- `PosixRawReader::read_pasted_text` (src/tty/unix.rs lines 423-441):
run the accumulation loop, then normalize line endings (CR LF first, then
bare CR, both to LF). -/
def read_pasted_text (l : List Char) : Except Err (List Char × List Char) :=
  match read_pasted_loop l with
  | Except.error e => Except.error e
  | Except.ok (buf, r) => Except.ok (replace_cr (replace_crlf buf), r)

theorem replace_cr_no_cr (l : List Char) : '\x0d' ∉ replace_cr l := by
  induction l with
  | nil => simp [replace_cr]
  | cons c t ih =>
    by_cases hc : c = '\x0d'
    · simp [replace_cr, hc, ih]
    · simp [replace_cr, hc, ih, Ne.symm hc]

/-- The shape of a bracketed-paste input stream: plain code points and
swallowed escape sequences, closed by an escape sequence decoding to the
paste-end marker.  The second index lists the plain code points in order. -/
inductive Pasted : List Char → List Char → Prop where
  | done (s r : List Char) (m : KeyMods)
      (h : escape_sequence s = Except.ok (⟨Key.BracketedPasteEnd, m⟩, r)) :
      Pasted ('\x1b' :: s) []
  | chr (c : Char) (l acc : List Char) (hc : c ≠ '\x1b') (h : Pasted l acc) :
      Pasted (c :: l) (c :: acc)
  | esc (s r acc : List Char) (kp : KeyPress)
      (h1 : escape_sequence s = Except.ok (kp, r))
      (h2 : kp.key ≠ Key.BracketedPasteEnd) (h : Pasted r acc) :
      Pasted ('\x1b' :: s) acc

theorem read_pasted_loop_esc (s : List Char) (kp : KeyPress) (r : List Char)
    (h : escape_sequence s = Except.ok (kp, r)) :
    read_pasted_loop ('\x1b' :: s) =
      if kp.key = Key.BracketedPasteEnd then Except.ok ([], r)
      else read_pasted_loop r := by
  conv_lhs => unfold read_pasted_loop
  rw [if_pos (rfl : ('\x1b' : Char) = '\x1b')]
  split
  · next e heq =>
    rw [h] at heq
    cases heq
  · next kp2 r2 heq =>
    rw [h] at heq
    injection heq with hpair
    injection hpair with hk hr
    subst hk
    subst hr
    rfl

theorem read_pasted_loop_chr (c : Char) (rest : List Char) (hc : c ≠ '\x1b') :
    read_pasted_loop (c :: rest) =
      match read_pasted_loop rest with
      | Except.error e => Except.error e
      | Except.ok (buf, r) => Except.ok (c :: buf, r) := by
  conv_lhs => unfold read_pasted_loop
  rw [if_neg hc]

theorem read_pasted_loop_spec (input acc : List Char) (h : Pasted input acc) :
    ∃ r, read_pasted_loop input = Except.ok (acc, r) := by
  induction h with
  | done s r m hend =>
    refine ⟨r, ?_⟩
    rw [read_pasted_loop_esc s _ r hend]
    simp
  | chr c l acc hc hp ih =>
    obtain ⟨r, hr⟩ := ih
    refine ⟨r, ?_⟩
    rw [read_pasted_loop_chr c l hc, hr]
  | esc s r acc kp h1 h2 hp ih =>
    obtain ⟨r2, hr⟩ := ih
    refine ⟨r2, ?_⟩
    rw [read_pasted_loop_esc s kp r h1, if_neg h2]
    exact hr

/-- C4: on a paste stream of plain code points closed by a paste-end
marker, `read_pasted_text` returns exactly the accumulated plain code
points with CR LF pairs and bare CRs replaced by LF (so no carriage return
remains), and every other escape sequence met mid-paste is swallowed,
contributing nothing to the result. -/
theorem read_pasted_text_normalizes (input acc : List Char)
    (h : Pasted input acc) :
    ∃ r, read_pasted_text input =
        Except.ok (replace_cr (replace_crlf acc), r) ∧
      '\x0d' ∉ replace_cr (replace_crlf acc) := by
  obtain ⟨r, hr⟩ := read_pasted_loop_spec input acc h
  exact ⟨r, by simp [read_pasted_text, hr], replace_cr_no_cr _⟩

/-- C4 witness: the paste a CR LF b CR with a swallowed ESC [ A inside,
closed by ESC [ 2 0 1 ~. -/
theorem read_pasted_text_normalizes_witness :
    ∃ r, read_pasted_text
        ['a', '\x0d', '\x0a', 'b', '\x1b', '[', 'A', '\x0d',
         '\x1b', '[', '2', '0', '1', '~'] =
      Except.ok (replace_cr (replace_crlf ['a', '\x0d', '\x0a', 'b', '\x0d']), r) ∧
      '\x0d' ∉ replace_cr (replace_crlf ['a', '\x0d', '\x0a', 'b', '\x0d']) :=
  read_pasted_text_normalizes _ _
    (Pasted.chr 'a' _ _ (by decide)
      (Pasted.chr '\x0d' _ _ (by decide)
        (Pasted.chr '\x0a' _ _ (by decide)
          (Pasted.chr 'b' _ _ (by decide)
            (Pasted.esc _ _ _ (KeyPress.plain Key.Up) rfl (by decide)
              (Pasted.chr '\x0d' _ _ (by decide)
                (Pasted.done ['[', '2', '0', '1', '~'] [] KeyMods.none rfl)))))))

theorem char_toNat_inj {c d : Char} (h : c.toNat = d.toNat) : c = d :=
  Char.ext (UInt32.toNat.inj h)

/-! ## Record-oriented decoder (src/tty/windows.rs) -/

def RIGHT_ALT_PRESSED : Nat := 0x0001
def LEFT_ALT_PRESSED : Nat := 0x0002
def RIGHT_CTRL_PRESSED : Nat := 0x0004
def LEFT_CTRL_PRESSED : Nat := 0x0008
def SHIFT_PRESSED : Nat := 0x0010
def VK_MENU : Nat := 0x12

/-- The fields of a `KEY_EVENT_RECORD` that `ConsoleRawReader::next_key`
inspects.  `unicodeChar` is the UTF-16 code unit of the record. -/
structure KeyEventRecord where
  keyDown : Bool
  virtualKeyCode : Nat
  controlKeyState : Nat
  unicodeChar : Nat
deriving DecidableEq, Repr

/-- Virtual-key table of `ConsoleRawReader::next_key` (src/tty/windows.rs
lines 154-180), used when the record carries no character. -/
def vk_to_key (vk : Nat) : Option Key :=
  if vk = 0x25 then Option.some Key.Left
  else if vk = 0x27 then Option.some Key.Right
  else if vk = 0x26 then Option.some Key.Up
  else if vk = 0x28 then Option.some Key.Down
  else if vk = 0x2E then Option.some Key.Delete
  else if vk = 0x24 then Option.some Key.Home
  else if vk = 0x23 then Option.some Key.End
  else if vk = 0x21 then Option.some Key.PageUp
  else if vk = 0x22 then Option.some Key.PageDown
  else if vk = 0x2D then Option.some Key.Insert
  else if 0x70 ≤ vk ∧ vk ≤ 0x7B then Option.some (Key.F (vk - 0x6F))
  else Option.none

/-- Modelled from the spec and the UTF-16 standard: decoding one UTF-16
code unit with a possibly pending high surrogate (`decode_utf16` in the
source); the claims only exercise the basic-plane path. -/
def decode_utf16_unit (surrogate utf16 : Nat) : Option Char :=
  if surrogate = 0 then
    if 0xDC00 ≤ utf16 ∧ utf16 ≤ 0xDFFF then Option.none
    else Option.some (Char.ofNat utf16)
  else
    if 0xDC00 ≤ utf16 ∧ utf16 ≤ 0xDFFF then
      Option.some (Char.ofNat ((surrogate - 0xD800) * 0x400 + (utf16 - 0xDC00) + 0x10000))
    else Option.none

/-- Outcome of one iteration of the `ConsoleRawReader::next_key` loop on a
key event: keep looping (with the pending surrogate), return a key press,
or fail. -/
inductive ConsoleStep where
  | more (surrogate : Nat)
  | key (kp : KeyPress)
  | fail (e : Err)
deriving DecidableEq, Repr

/-- The key-event body of `ConsoleRawReader::next_key` (src/tty/windows.rs
lines 136-213): modifier extraction from the control-key state, virtual-key
dispatch when no character is attached, surrogate buffering, and the
Shift+Tab / Ctrl+Space remappings; only Meta is attached to a decoded
character. -/
def process_key_event (surrogate : Nat) (e : KeyEventRecord) : ConsoleStep :=
  if e.keyDown = false ∧ e.virtualKeyCode ≠ VK_MENU then ConsoleStep.more surrogate
  else
    let state := e.controlKeyState
    let alt_gr : Bool :=
      (state &&& (LEFT_CTRL_PRESSED ||| RIGHT_ALT_PRESSED)) ==
        (LEFT_CTRL_PRESSED ||| RIGHT_ALT_PRESSED)
    let alt : Bool := (state &&& (LEFT_ALT_PRESSED ||| RIGHT_ALT_PRESSED)) != 0
    let ctrl : Bool := (state &&& (LEFT_CTRL_PRESSED ||| RIGHT_CTRL_PRESSED)) != 0
    let meta : Bool := alt && !alt_gr
    let shift : Bool := (state &&& SHIFT_PRESSED) != 0
    let mods := KeyMods.ctrl_meta_shift ctrl meta shift
    let utf16 := e.unicodeChar
    if utf16 = 0 then
      match vk_to_key e.virtualKeyCode with
      | Option.some k => ConsoleStep.key (Key.with_mods k mods)
      | Option.none => ConsoleStep.more surrogate
    else if utf16 = 27 then ConsoleStep.key (Key.with_mods Key.Esc mods)
    else if 0xD800 ≤ utf16 ∧ utf16 < 0xDC00 then ConsoleStep.more utf16
    else
      match decode_utf16_unit surrogate utf16 with
      | Option.none => ConsoleStep.fail Err.Utf8Error
      | Option.some c =>
        if meta then ConsoleStep.key (KeyPress.meta c)
        else
          let key := char_to_key_press c
          let key2 :=
            if key = KeyPress.TAB ∧ shift = true then KeyPress.BACK_TAB
            else if key = KeyPress.plain (Key.Char ' ') ∧ ctrl = true then
              KeyPress.ctrl_char ' '
            else key
          ConsoleStep.key key2

/-- C10: a key-down record carrying a printable ASCII character (or Tab
with Shift held) with Ctrl or Shift held but Alt not held decodes to the
bare character key press with no modifier bits, except exactly the two
remappings Shift+Tab to BackTab and Ctrl+Space to Ctrl+space. -/
theorem console_printable_drops_mods (e : KeyEventRecord) (c : Char)
    (huc : e.unicodeChar = c.toNat)
    (hdown : e.keyDown = true)
    (hchar : (0x20 ≤ c.toNat ∧ c.toNat ≤ 0x7e) ∨
      (c.toNat = 9 ∧ e.controlKeyState &&& SHIFT_PRESSED ≠ 0))
    (halt : e.controlKeyState &&& (LEFT_ALT_PRESSED ||| RIGHT_ALT_PRESSED) = 0)
    (hmods : e.controlKeyState &&& (LEFT_CTRL_PRESSED ||| RIGHT_CTRL_PRESSED) ≠ 0 ∨
      e.controlKeyState &&& SHIFT_PRESSED ≠ 0) :
    process_key_event 0 e = ConsoleStep.key
      (if c.toNat = 9 then KeyPress.BACK_TAB
       else if c.toNat = 0x20 ∧
          e.controlKeyState &&& (LEFT_CTRL_PRESSED ||| RIGHT_CTRL_PRESSED) ≠ 0 then
        KeyPress.ctrl_char ' '
       else KeyPress.plain (Key.Char c)) := by
  have hle : c.toNat ≤ 0x7e := by
    rcases hchar with ⟨h1, h2⟩ | ⟨h1, _⟩ <;> omega
  have hne0 : ¬ (e.unicodeChar = 0) := by
    rw [huc]
    rcases hchar with ⟨h1, _⟩ | ⟨h1, _⟩ <;> omega
  have hne27 : ¬ (e.unicodeChar = 27) := by
    rw [huc]
    rcases hchar with ⟨h1, h2⟩ | ⟨h1, _⟩ <;> omega
  have hnsur : ¬ (0xD800 ≤ e.unicodeChar ∧ e.unicodeChar < 0xDC00) := by
    rw [huc]
    rintro ⟨ha, _⟩
    omega
  have hdec : decode_utf16_unit 0 e.unicodeChar = Option.some c := by
    rw [huc]
    unfold decode_utf16_unit
    rw [if_pos rfl, if_neg (by omega : ¬ (0xDC00 ≤ c.toNat ∧ c.toNat ≤ 0xDFFF)),
      Char.ofNat_toNat]
  have hmeta : ((e.controlKeyState &&& (LEFT_ALT_PRESSED ||| RIGHT_ALT_PRESSED)) != 0)
      = false := by
    rw [halt]
    rfl
  have hfirst : ¬ (e.keyDown = false ∧ e.virtualKeyCode ≠ VK_MENU) := by
    rw [hdown]
    rintro ⟨h1, _⟩
    cases h1
  unfold process_key_event
  rw [if_neg hfirst]
  simp only [hmeta, Bool.false_and, hne0, hne27, hnsur, hdec, if_false,
    Bool.false_eq_true, ite_false]
  rcases hchar with ⟨h32, h126⟩ | ⟨h9, hshift⟩
  · -- printable character: char_to_key_press yields the bare character
    have hkey : char_to_key_press c = KeyPress.plain (Key.Char c) := by
      unfold char_to_key_press
      rw [if_neg (fun h => by subst h; exact absurd h32 (by decide)),
        if_neg (fun h => by subst h; exact absurd h32 (by decide)),
        if_neg (fun h => by subst h; exact absurd h32 (by decide)),
        if_neg (fun h => by subst h; exact absurd h126 (by decide)),
        if_neg (by omega), if_neg (by omega)]
    rw [hkey]
    have hn9 : ¬ (c.toNat = 9) := by omega
    rw [if_neg hn9]
    have hntab : ¬ (KeyPress.plain (Key.Char c) = KeyPress.TAB ∧
        ((e.controlKeyState &&& SHIFT_PRESSED) != 0) = true) := by
      rintro ⟨h1, _⟩
      rw [KeyPress.plain, KeyPress.TAB, KeyPress.plain] at h1
      injection h1 with hk _
      cases hk
    rw [if_neg hntab]
    by_cases hsp : c.toNat = 0x20 ∧
        e.controlKeyState &&& (LEFT_CTRL_PRESSED ||| RIGHT_CTRL_PRESSED) ≠ 0
    · obtain ⟨hsp1, hsp2⟩ := hsp
      have hc : c = ' ' := char_toNat_inj (by rw [hsp1]; rfl)
      subst hc
      rw [if_pos ⟨rfl, bne_iff_ne.mpr hsp2⟩, if_pos ⟨hsp1, hsp2⟩]
    · rw [if_neg hsp]
      rw [if_neg (fun hand => hsp ?_)]
      obtain ⟨h1, h2⟩ := hand
      rw [KeyPress.plain, KeyPress.plain] at h1
      injection h1 with hk _
      injection hk with hc
      subst hc
      exact ⟨rfl, bne_iff_ne.mp h2⟩
  · -- Tab with Shift held
    have hc : c = '\x09' := char_toNat_inj (by rw [h9]; rfl)
    subst hc
    rw [if_pos ⟨rfl, bne_iff_ne.mpr hshift⟩, if_pos h9]

/-- C10 witness: key-down record for letter a with Shift held. -/
theorem console_printable_drops_mods_witness :
    ((0x10 : Nat) &&& (LEFT_ALT_PRESSED ||| RIGHT_ALT_PRESSED) = 0 ∧
      ((0x10 : Nat) &&& (LEFT_CTRL_PRESSED ||| RIGHT_CTRL_PRESSED) ≠ 0 ∨
        (0x10 : Nat) &&& SHIFT_PRESSED ≠ 0)) ∧
    process_key_event 0 ⟨true, 0x41, 0x10, 'a'.toNat⟩ = ConsoleStep.key
      (if 'a'.toNat = 9 then KeyPress.BACK_TAB
       else if 'a'.toNat = 0x20 ∧
          (0x10 : Nat) &&& (LEFT_CTRL_PRESSED ||| RIGHT_CTRL_PRESSED) ≠ 0 then
        KeyPress.ctrl_char ' '
       else KeyPress.plain (Key.Char 'a')) :=
  ⟨⟨by decide, Or.inr (by decide)⟩,
    console_printable_drops_mods ⟨true, 0x41, 0x10, 'a'.toNat⟩ 'a' rfl rfl
      (Or.inl ⟨by decide, by decide⟩) (by decide) (Or.inr (by decide))⟩

end Rustyline
